import Mathlib

/-!
Verification of the INPHMS module loader against its specification.

The repository ships the loader's TypeScript declaration
(`src/unnamed/part_012`: `InphmsModuleLoader`, `InphmsModuleFactory`,
`InphmsModuleErrors`, `InphmsModuleFactoryFn`) and a caller
(`src/addons/web/static/tests/_framework/hoot_module_loader.js`), but not the
loader's implementation file itself.  The loader's behaviour is therefore
modelled from the spec (sections 3, 4.1, 4.2, 4.3, 6), keeping the names and
shapes of the declaration file.  Module values are opaque to the loader, so the
whole model is parametric in a type `V` of module values.

Exceptions ("a factory throws", "require fails loudly") are modelled with
`Except Unit`; the absent sentinel that `require` yields for an excused missing
dependency is `Except.ok none`.
-/

namespace Inphms

/-- Modelled from the spec: the factory-function type `InphmsModuleFactoryFn`
of `src/unnamed/part_012` (implementation file absent from the repository).
A factory receives the `require` capability and returns a module value or
throws; `require` itself either yields a module value (`Except.ok (some v)`),
the explicit absent sentinel for an excused missing dependency
(`Except.ok none`), or throws (`Except.error ()`). -/
def InphmsModuleFactoryFn (V : Type) : Type :=
  (String → Except Unit (Option V)) → Except Unit V

/-- Modelled from the spec: a registered factory (`InphmsModuleFactory` of
`src/unnamed/part_012`): dependency names, the factory function, and the
lazy / ignore-missing-dependencies flag. -/
structure InphmsModuleFactory (V : Type) where
  deps : List String
  fn : InphmsModuleFactoryFn V
  ignoreMissingDeps : Bool

/-- Modelled from the spec: the terminal error classification
(`InphmsModuleErrors` of `src/unnamed/part_012`): one cycle witness or none,
the names whose factory threw, the depended-upon names never registered and
not excused, and the remaining jobs blocked transitively. -/
structure InphmsModuleErrors where
  cycle : Option String
  failed : List String
  missing : List String
  unloaded : List String
  deriving DecidableEq, Repr

/-- Modelled from the spec: the loader's observable trace.  Spec section 6 has
one event per successfully started module and one carrying the final
classification when a pass settles with errors; `invoked` additionally records
each factory-function invocation so that claims about "factory never invoked /
invoked once" are statable. -/
inductive LoaderEvent where
  | invoked : String → LoaderEvent
  | moduleStarted : String → LoaderEvent
  | errorReported : InphmsModuleErrors → LoaderEvent
  deriving DecidableEq, Repr

/-- Modelled from the spec: the loader state (`InphmsModuleLoader` of
`src/unnamed/part_012`): the factory registry (association list in
registration order), the names whose factory threw, the pending job names, and
the module table (association list in creation order). -/
structure InphmsModuleLoader (V : Type) where
  factories : List (String × InphmsModuleFactory V)
  failed : List String
  jobs : List String
  modules : List (String × V)

/-- Association-list insert with the spec's overwrite-silently policy for
re-registration (spec section 4.1): an existing binding for the key is
replaced in place, otherwise the binding is appended. -/
def insertAssoc {α : Type} : List (String × α) → String → α → List (String × α)
  | [], k, v => [(k, v)]
  | (k', v') :: rest, k, v =>
    if k' = k then (k, v) :: rest else (k', v') :: insertAssoc rest k v

/-- The freshly constructed loader: nothing registered, nothing pending. -/
def initLoader (V : Type) : InphmsModuleLoader V :=
  ⟨[], [], [], []⟩

/-- Names of the modules already created, in creation order. -/
def modKeys {V : Type} (s : InphmsModuleLoader V) : List String :=
  s.modules.map Prod.fst

/-- Names ever registered (the registry's keys). -/
def factoryKeys {V : Type} (s : InphmsModuleLoader V) : List String :=
  s.factories.map Prod.fst

/-- Modelled from the spec: `addJob` of `src/unnamed/part_012`.  A registered
name becomes a pending job unless it is already pending, already resolved into
a module, or already classified as failed (spec sections 3 and 7: a failed
name is never retried automatically). -/
def addJob {V : Type} (s : InphmsModuleLoader V) (name : String) :
    InphmsModuleLoader V :=
  if name ∈ s.jobs ∨ (s.modules.lookup name).isSome ∨ name ∈ s.failed then s
  else { s with jobs := s.jobs ++ [name] }

/-- Modelled from the spec: `define` of `src/unnamed/part_012` (spec section
4.1 `register`): stores the factory under its name (overwriting silently on
re-registration) and enqueues the name as a job. -/
def define {V : Type} (s : InphmsModuleLoader V) (name : String)
    (deps : List String) (factory : InphmsModuleFactoryFn V) (lazy : Bool) :
    InphmsModuleLoader V :=
  addJob { s with factories := insertAssoc s.factories name ⟨deps, factory, lazy⟩ } name

/-- Modelled from the spec: `canRun(job, moduleTable)` of spec section 4.2 —
true iff every dependency of the job's factory is either present in the module
table, or missing from the registry entirely while the factory's
`ignoreMissingDeps` flag is true. -/
def canRun {V : Type} (s : InphmsModuleLoader V) (f : InphmsModuleFactory V) :
    Bool :=
  f.deps.all fun d =>
    (s.modules.lookup d).isSome || ((s.factories.lookup d).isNone && f.ignoreMissingDeps)

/-- Modelled from the spec: the `require` capability handed to a factory
function (spec section 4.3): a started module's value is returned; a name
missing from the registry entirely is excused by `ignoreMissingDeps` and
resolves to the explicit absent sentinel `Except.ok none`; any other name
fails loudly. -/
def mkRequire {V : Type} (s : InphmsModuleLoader V) (f : InphmsModuleFactory V) :
    String → Except Unit (Option V) := fun d =>
  match s.modules.lookup d with
  | some v => Except.ok (some v)
  | none =>
    if f.ignoreMissingDeps && (s.factories.lookup d).isNone then Except.ok none
    else Except.error ()

/-- Modelled from the spec: `startModule` of `src/unnamed/part_012` (spec
section 4.3): invokes the factory function with the `require` capability; on
success the module is appended to the module table and the job removed; on a
thrown error the name joins `failed` and the job is removed, the exception
never escaping the scheduler. -/
def startModule {V : Type} (s : InphmsModuleLoader V) (name : String) :
    InphmsModuleLoader V × List LoaderEvent :=
  match s.factories.lookup name with
  | none => (s, [])
  | some f =>
    match f.fn (mkRequire s f) with
    | Except.ok v =>
      ({ s with modules := s.modules ++ [(name, v)], jobs := s.jobs.erase name },
        [LoaderEvent.invoked name, LoaderEvent.moduleStarted name])
    | Except.error _ =>
      ({ s with failed := s.failed ++ [name], jobs := s.jobs.erase name },
        [LoaderEvent.invoked name])

/-- Whether a pending name's factory is currently runnable. -/
def runnable {V : Type} (s : InphmsModuleLoader V) (name : String) : Bool :=
  match s.factories.lookup name with
  | some f => canRun s f
  | none => false

/-- Modelled from the spec: one full pass (spec section 4.3 and glossary) over
a snapshot of the pending jobs: each name still pending and runnable is
started; the Boolean records whether the pass made progress. -/
def passAux {V : Type} (s : InphmsModuleLoader V) :
    List String → InphmsModuleLoader V × List LoaderEvent × Bool
  | [] => (s, [], false)
  | n :: rest =>
    if n ∈ s.jobs ∧ runnable s n = true then
      let step := startModule s n
      let next := passAux step.1 rest
      (next.1, step.2 ++ next.2.1, true)
    else passAux s rest

/-- Modelled from the spec: the cycle search of spec section 4.2 step 2 — walk
dependency chains from an unresolved job, following each unresolved
dependency; a name revisited before reaching a resolved or absent node is the
witness.  Fuel bounds the walk's depth. -/
def findCycleAux {V : Type} (facts : List (String × InphmsModuleFactory V))
    (mods : List String) : Nat → List String → String → Option String
  | 0, _, _ => none
  | Nat.succ fuel, path, n =>
    if n ∈ path then some n
    else
      match facts.lookup n with
      | none => none
      | some f =>
        if n ∈ mods then none
        else f.deps.findSome? (findCycleAux facts mods fuel (n :: path))

/-- Cycle witness among the remaining jobs, searched in a fixed (job-list)
order so the tie-break is deterministic (spec section 4.2). -/
def findCycle {V : Type} (s : InphmsModuleLoader V) : Option String :=
  s.jobs.findSome? fun j =>
    findCycleAux s.factories (modKeys s) (s.factories.length + 1) [] j

/-- Modelled from the spec: spec section 4.2 step 1 — dependency names of
remaining jobs that are absent from both the registry and the module table and
not excused by the dependent factory's flag. -/
def missingOf {V : Type} (s : InphmsModuleLoader V) : List String :=
  s.jobs.foldr
    (fun j acc =>
      match s.factories.lookup j with
      | none => acc
      | some f =>
        (f.deps.filter fun d =>
          (s.factories.lookup d).isNone && (s.modules.lookup d).isNone
            && !f.ignoreMissingDeps) ++ acc)
    []

/-- Modelled from the spec: `findErrors` of `src/unnamed/part_012` (spec
section 4.2 `classifyBlockage` plus section 7): cycle witness, the scheduler's
`failed` set, the missing dependency names, and the remaining jobs other than
the cycle witness as `unloaded` (section 7: a blocked dependent and everything
transitively depending on it is unloaded). -/
def findErrors {V : Type} (s : InphmsModuleLoader V) : InphmsModuleErrors :=
  let cyc := findCycle s
  { cycle := cyc
    failed := s.failed
    missing := missingOf s
    unloaded := s.jobs.filter fun j => !(cyc == some j) }

/-- Modelled from the spec: the scheduler loop of spec section 4.3, with
structural fuel.  A pass that makes progress is followed by another pass; a
full pass with zero progress while jobs remain classifies the blockage and
emits the error event; no jobs remaining is success. -/
def startLoop {V : Type} :
    Nat → InphmsModuleLoader V → InphmsModuleLoader V × List LoaderEvent
  | 0, s => (s, [])
  | Nat.succ fuel, s =>
    if s.jobs.isEmpty then (s, [])
    else
      let p := passAux s s.jobs
      if p.2.2 then
        let next := startLoop fuel p.1
        (next.1, p.2.1 ++ next.2)
      else
        (p.1, p.2.1 ++ [LoaderEvent.errorReported (findErrors p.1)])

/-- Modelled from the spec: `startModules` of `src/unnamed/part_012` (spec
section 4.3 `start`).  Fuel `jobs.length + 1` suffices: every productive pass
removes at least one job (proved below as part of the termination claim). -/
def startModules {V : Type} (s : InphmsModuleLoader V) :
    InphmsModuleLoader V × List LoaderEvent :=
  startLoop (s.jobs.length + 1) s

/-- One registration request: name, dependency names, factory function, lazy
flag. -/
def RegEntry (V : Type) : Type :=
  String × List String × InphmsModuleFactoryFn V × Bool

/-- Registers a whole registration set, in order, on a fresh loader. -/
def registerAll {V : Type} (regs : List (RegEntry V)) : InphmsModuleLoader V :=
  regs.foldl (fun s r => define s r.1 r.2.1 r.2.2.1 r.2.2.2) (initLoader V)

/-- Holds when every registered dependency of `n`'s factory (looked up in the
registry `F`) lies in the name list `seen`. -/
def depsSatisfied {V : Type} (F : List (String × InphmsModuleFactory V))
    (seen : List String) (n : String) : Prop :=
  ∀ f, F.lookup n = some f → ∀ d ∈ f.deps, (F.lookup d).isSome = true → d ∈ seen

/-- The module table lists its entries in an order where every entry's
registered dependencies occur strictly earlier (or among the names `seen`
already). -/
def chainOk {V : Type} (F : List (String × InphmsModuleFactory V))
    (seen : List String) : List (String × V) → Prop
  | [] => True
  | (n, _) :: rest => depsSatisfied F seen n ∧ chainOk F (seen ++ [n]) rest

/-- Name `b` occurs in the module table (creation order) strictly before name
`a`. -/
def createdBefore {V : Type} (s : InphmsModuleLoader V) (b a : String) : Prop :=
  ∃ l₁ l₂, modKeys s = l₁ ++ b :: l₂ ∧ a ∈ l₂

/-- The pending jobs, the created modules and the failed names are pairwise
disjoint duplicate-free name sets whose union is exactly the set of
ever-registered names. -/
def partitioned {V : Type} (s : InphmsModuleLoader V) : Prop :=
  s.jobs.Nodup ∧ (modKeys s).Nodup
    ∧ (∀ n, (s.factories.lookup n).isSome = true
        ↔ (n ∈ s.jobs ∨ n ∈ modKeys s ∨ n ∈ s.failed))
    ∧ (∀ n, n ∈ s.jobs → n ∉ modKeys s)
    ∧ (∀ n, n ∈ s.jobs → n ∉ s.failed)
    ∧ (∀ n, n ∈ modKeys s → n ∉ s.failed)

/-- Loader states reachable from the fresh loader by the public operations:
registration, a single pass, or a full `startModules` call. -/
inductive Reachable {V : Type} : InphmsModuleLoader V → Prop where
  | init : Reachable (initLoader V)
  | defineStep (s : InphmsModuleLoader V) (name : String) (deps : List String)
      (factory : InphmsModuleFactoryFn V) (lazy : Bool) :
      Reachable s → Reachable (define s name deps factory lazy)
  | passStep (s : InphmsModuleLoader V) : Reachable s → Reachable (passAux s s.jobs).1
  | startStep (s : InphmsModuleLoader V) : Reachable s → Reachable (startModules s).1

/-- Factory function that returns the value `v` without touching `require`. -/
def okFn {V : Type} (v : V) : InphmsModuleFactoryFn V := fun _ => Except.ok v

/-- Factory function that throws. -/
def throwFn {V : Type} : InphmsModuleFactoryFn V := fun _ => Except.error ()

/-- From `src/addons/web/static/tests/_framework/hoot_module_loader.js`: the
hoot-wrapped `inphms.define` takes exactly three arguments (name,
dependencies, factory) and calls `loader.define` with the fourth (lazy /
ignore-missing-dependencies) argument computed as `!name.endsWith(".hoot")` —
callers cannot supply it. -/
def hootDefine {V : Type} (s : InphmsModuleLoader V) (name : String)
    (dependencies : List String) (factory : InphmsModuleFactoryFn V) :
    InphmsModuleLoader V :=
  define s name dependencies factory (!(String.endsWith name ".hoot"))

theorem lookup_cons {α : Type} (k : String) (v : α) (l : List (String × α)) (m : String) :
    ((k, v) :: l).lookup m = if m = k then some v else l.lookup m := by
  by_cases hm : m = k
  · have hb : (m == k) = true := by simp [hm]
    simp [List.lookup, hb, hm]
  · have hb : (m == k) = false := by simp [hm]
    simp [List.lookup, hb, hm]

theorem insertAssoc_lookup {α : Type} (l : List (String × α)) (k m : String) (v : α) :
    (insertAssoc l k v).lookup m = if m = k then some v else l.lookup m := by
  induction l with
  | nil =>
    show ([(k, v)].lookup m) = _
    rw [lookup_cons]
  | cons p rest ih =>
    obtain ⟨k', v'⟩ := p
    by_cases hk : k' = k
    · subst hk
      by_cases hm : m = k' <;> simp [insertAssoc, lookup_cons, hm]
    · by_cases hm : m = k'
      · subst hm
        simp [insertAssoc, hk, lookup_cons, Ne.symm hk]
      · simp [insertAssoc, hk, lookup_cons, hm, ih]

theorem lookup_isSome_iff {α : Type} (l : List (String × α)) (n : String) :
    (l.lookup n).isSome = true ↔ n ∈ l.map Prod.fst := by
  induction l with
  | nil => simp [List.lookup]
  | cons p rest ih =>
    obtain ⟨k, v⟩ := p
    by_cases hm : n = k <;> simp [lookup_cons, hm, ih]

theorem lookup_eq_none_iff {α : Type} (l : List (String × α)) (n : String) :
    l.lookup n = none ↔ n ∉ l.map Prod.fst := by
  rw [← lookup_isSome_iff]
  cases l.lookup n <;> simp

theorem lookup_append {α : Type} (l₁ l₂ : List (String × α)) (n : String) :
    (l₁ ++ l₂).lookup n = ((l₁.lookup n).or (l₂.lookup n)) := by
  induction l₁ with
  | nil => simp [List.lookup]
  | cons p rest ih =>
    obtain ⟨k, v⟩ := p
    by_cases hm : n = k <;> simp [lookup_cons, hm, ih]

theorem startModule_factories {V : Type} (s : InphmsModuleLoader V) (n : String) :
    (startModule s n).1.factories = s.factories := by
  unfold startModule
  split
  · rfl
  · split <;> rfl

theorem startModule_jobs_of_runnable {V : Type} (s : InphmsModuleLoader V) (n : String)
    (h : runnable s n = true) : (startModule s n).1.jobs = s.jobs.erase n := by
  unfold runnable at h
  unfold startModule
  split
  · rename_i heq
    rw [heq] at h
    exact absurd h (by simp)
  · split <;> rfl

theorem startModule_jobs_sub {V : Type} (s : InphmsModuleLoader V) (n m : String)
    (h : m ∈ (startModule s n).1.jobs) : m ∈ s.jobs := by
  unfold startModule at h
  revert h
  split
  · exact id
  · split
    · intro h
      exact (List.mem_of_mem_erase h)
    · intro h
      exact (List.mem_of_mem_erase h)

theorem passAux_factories {V : Type} (ns : List String) :
    ∀ s : InphmsModuleLoader V, (passAux s ns).1.factories = s.factories := by
  induction ns with
  | nil => intro s; rfl
  | cons n rest ih =>
    intro s
    unfold passAux
    split
    · rw [ih, startModule_factories]
    · exact ih s

theorem passAux_jobs_sub {V : Type} (ns : List String) :
    ∀ (s : InphmsModuleLoader V) (m : String), m ∈ (passAux s ns).1.jobs → m ∈ s.jobs := by
  induction ns with
  | nil => intro s m h; exact h
  | cons n rest ih =>
    intro s m
    unfold passAux
    split
    · intro h
      exact startModule_jobs_sub s n m (ih _ m h)
    · exact ih s m

theorem passAux_no_progress {V : Type} (ns : List String) :
    ∀ s : InphmsModuleLoader V, (passAux s ns).2.2 = false →
      (passAux s ns).1 = s ∧ (passAux s ns).2.1 = [] := by
  induction ns with
  | nil => intro s _; exact ⟨rfl, rfl⟩
  | cons n rest ih =>
    intro s h
    unfold passAux at h ⊢
    revert h
    split
    · intro h
      simp at h
    · exact ih s

theorem passAux_cons_pos {V : Type} (s : InphmsModuleLoader V) (n : String)
    (rest : List String) (h : n ∈ s.jobs ∧ runnable s n = true) :
    passAux s (n :: rest)
      = ((passAux (startModule s n).1 rest).1,
          (startModule s n).2 ++ (passAux (startModule s n).1 rest).2.1, true) := by
  conv_lhs => rw [passAux]
  rw [if_pos h]

theorem passAux_cons_neg {V : Type} (s : InphmsModuleLoader V) (n : String)
    (rest : List String) (h : ¬(n ∈ s.jobs ∧ runnable s n = true)) :
    passAux s (n :: rest) = passAux s rest := by
  conv_lhs => rw [passAux]
  rw [if_neg h]

theorem startLoop_succ_empty {V : Type} (fuel : Nat) (s : InphmsModuleLoader V)
    (h : s.jobs.isEmpty = true) : startLoop (fuel + 1) s = (s, []) := by
  conv_lhs => rw [startLoop]
  rw [if_pos h]

theorem startLoop_succ_progress {V : Type} (fuel : Nat) (s : InphmsModuleLoader V)
    (h : ¬s.jobs.isEmpty = true) (hp : (passAux s s.jobs).2.2 = true) :
    startLoop (fuel + 1) s
      = ((startLoop fuel (passAux s s.jobs).1).1,
          (passAux s s.jobs).2.1 ++ (startLoop fuel (passAux s s.jobs).1).2) := by
  conv_lhs => rw [startLoop]
  rw [if_neg h]
  show (if (passAux s s.jobs).2.2 = true then _ else _) = _
  rw [if_pos hp]

theorem startLoop_succ_stuck {V : Type} (fuel : Nat) (s : InphmsModuleLoader V)
    (h : ¬s.jobs.isEmpty = true) (hp : ¬(passAux s s.jobs).2.2 = true) :
    startLoop (fuel + 1) s
      = ((passAux s s.jobs).1,
          (passAux s s.jobs).2.1
            ++ [LoaderEvent.errorReported (findErrors (passAux s s.jobs).1)]) := by
  conv_lhs => rw [startLoop]
  rw [if_neg h]
  show (if (passAux s s.jobs).2.2 = true then _ else _) = _
  rw [if_neg hp]

theorem startModule_jobs_length {V : Type} (s : InphmsModuleLoader V) (n : String)
    (hmem : n ∈ s.jobs) (hrun : runnable s n = true) :
    (startModule s n).1.jobs.length + 1 = s.jobs.length := by
  rw [startModule_jobs_of_runnable s n hrun]
  have h1 : (s.jobs.erase n).length = s.jobs.length - 1 :=
    List.length_erase_of_mem hmem
  have h2 : 0 < s.jobs.length := List.length_pos_of_mem hmem
  omega

theorem passAux_jobs_length_le {V : Type} (ns : List String) :
    ∀ s : InphmsModuleLoader V, (passAux s ns).1.jobs.length ≤ s.jobs.length := by
  induction ns with
  | nil => intro s; exact Nat.le_refl _
  | cons n rest ih =>
    intro s
    by_cases h : n ∈ s.jobs ∧ runnable s n = true
    · rw [passAux_cons_pos s n rest h]
      have h1 := ih (startModule s n).1
      have h2 := startModule_jobs_length s n h.1 h.2
      simp only
      omega
    · rw [passAux_cons_neg s n rest h]
      exact ih s

theorem passAux_progress_lt {V : Type} (ns : List String) :
    ∀ s : InphmsModuleLoader V, (passAux s ns).2.2 = true →
      (passAux s ns).1.jobs.length < s.jobs.length := by
  induction ns with
  | nil => intro s h; simp [passAux] at h
  | cons n rest ih =>
    intro s hp
    by_cases h : n ∈ s.jobs ∧ runnable s n = true
    · rw [passAux_cons_pos s n rest h]
      have h1 := passAux_jobs_length_le rest (startModule s n).1
      have h2 := startModule_jobs_length s n h.1 h.2
      simp only
      omega
    · rw [passAux_cons_neg s n rest h] at hp ⊢
      exact ih s hp

theorem startLoop_factories {V : Type} (fuel : Nat) :
    ∀ s : InphmsModuleLoader V, (startLoop fuel s).1.factories = s.factories := by
  induction fuel with
  | zero => intro s; rfl
  | succ fuel ih =>
    intro s
    by_cases h : s.jobs.isEmpty = true
    · rw [startLoop_succ_empty fuel s h]
    · by_cases hp : (passAux s s.jobs).2.2 = true
      · rw [startLoop_succ_progress fuel s h hp]
        show (startLoop fuel (passAux s s.jobs).1).1.factories = _
        rw [ih, passAux_factories]
      · rw [startLoop_succ_stuck fuel s h hp]
        exact passAux_factories _ s

theorem startModules_factories {V : Type} (s : InphmsModuleLoader V) :
    (startModules s).1.factories = s.factories :=
  startLoop_factories _ s

theorem startLoop_jobs_sub {V : Type} (fuel : Nat) :
    ∀ (s : InphmsModuleLoader V) (m : String),
      m ∈ (startLoop fuel s).1.jobs → m ∈ s.jobs := by
  induction fuel with
  | zero => intro s m h; exact h
  | succ fuel ih =>
    intro s m
    by_cases h : s.jobs.isEmpty = true
    · rw [startLoop_succ_empty fuel s h]
      exact id
    · by_cases hp : (passAux s s.jobs).2.2 = true
      · rw [startLoop_succ_progress fuel s h hp]
        intro hm
        exact passAux_jobs_sub _ s m (ih _ m hm)
      · rw [startLoop_succ_stuck fuel s h hp]
        exact passAux_jobs_sub _ s m

theorem startLoop_fuel_irrelevant {V : Type} (fuel₁ : Nat) :
    ∀ (fuel₂ : Nat) (s : InphmsModuleLoader V),
      s.jobs.length < fuel₁ → s.jobs.length < fuel₂ →
      startLoop fuel₁ s = startLoop fuel₂ s := by
  induction fuel₁ with
  | zero => intro f2 s h1 _; omega
  | succ fuel ih =>
    intro f2 s h1 h2
    cases f2 with
    | zero => omega
    | succ f2 =>
      by_cases h : s.jobs.isEmpty = true
      · rw [startLoop_succ_empty fuel s h, startLoop_succ_empty f2 s h]
      · by_cases hp : (passAux s s.jobs).2.2 = true
        · rw [startLoop_succ_progress fuel s h hp, startLoop_succ_progress f2 s h hp]
          have hlt := passAux_progress_lt s.jobs s hp
          rw [ih f2 (passAux s s.jobs).1 (by omega) (by omega)]
        · rw [startLoop_succ_stuck fuel s h hp, startLoop_succ_stuck f2 s h hp]

theorem startLoop_final {V : Type} (fuel : Nat) :
    ∀ s : InphmsModuleLoader V, s.jobs.length < fuel →
      (startLoop fuel s).1.jobs = []
        ∨ ((startLoop fuel s).1.jobs ≠ []
            ∧ (passAux (startLoop fuel s).1 (startLoop fuel s).1.jobs).2.2 = false
            ∧ ∃ e, LoaderEvent.errorReported e ∈ (startLoop fuel s).2) := by
  induction fuel with
  | zero => intro s h; omega
  | succ fuel ih =>
    intro s hlen
    by_cases h : s.jobs.isEmpty = true
    · rw [startLoop_succ_empty fuel s h]
      exact Or.inl (List.isEmpty_iff.mp h)
    · by_cases hp : (passAux s s.jobs).2.2 = true
      · rw [startLoop_succ_progress fuel s h hp]
        have hlt := passAux_progress_lt s.jobs s hp
        rcases ih (passAux s s.jobs).1 (by omega) with hleft | ⟨h1, h2, e, he⟩
        · exact Or.inl hleft
        · exact Or.inr ⟨h1, h2, e, List.mem_append_right _ he⟩
      · have hp' : (passAux s s.jobs).2.2 = false := by
          simpa using hp
        rw [startLoop_succ_stuck fuel s h hp]
        obtain ⟨hst, htr⟩ := passAux_no_progress s.jobs s hp'
        rw [hst]
        refine Or.inr ⟨?_, ?_, findErrors s, ?_⟩
        · intro hnil
          rw [hnil] at h
          exact h rfl
        · exact hp'
        · rw [htr]
          simp

theorem startModule_invoked_count {V : Type} (s : InphmsModuleLoader V) (n m : String)
    (hrun : runnable s n = true) :
    (startModule s n).2.count (LoaderEvent.invoked m) = if m = n then 1 else 0 := by
  unfold runnable at hrun
  unfold startModule
  split
  · rename_i heq
    rw [heq] at hrun
    exact absurd hrun (by simp)
  · split <;> by_cases hm : m = n <;> simp [List.count_cons, hm]

theorem passAux_invoked_count {V : Type} (ns : List String) :
    ∀ (s : InphmsModuleLoader V) (m : String),
      (passAux s ns).2.1.count (LoaderEvent.invoked m) + (passAux s ns).1.jobs.count m
        ≤ s.jobs.count m := by
  induction ns with
  | nil => intro s m; simp [passAux]
  | cons n rest ih =>
    intro s m
    by_cases h : n ∈ s.jobs ∧ runnable s n = true
    · rw [passAux_cons_pos s n rest h]
      simp only [List.count_append]
      have h1 := ih (startModule s n).1 m
      have h2 := startModule_invoked_count s n m h.2
      have h3 : (startModule s n).1.jobs = s.jobs.erase n :=
        startModule_jobs_of_runnable s n h.2
      rw [h3] at h1
      rw [h2]
      by_cases hm : m = n
      · subst hm
        have h4 : (s.jobs.erase m).count m = s.jobs.count m - 1 :=
          List.count_erase_self m s.jobs
        have h5 : 0 < s.jobs.count m := List.count_pos_iff.mpr h.1
        rw [h4] at h1
        have h6 : (if m = m then (1 : Nat) else 0) = 1 := if_pos rfl
        rw [h6]
        omega
      · have h4 : (s.jobs.erase n).count m = s.jobs.count m :=
          List.count_erase_of_ne hm s.jobs
        rw [h4] at h1
        rw [if_neg hm]
        omega
    · rw [passAux_cons_neg s n rest h]
      exact ih s m

theorem startLoop_invoked_count {V : Type} (fuel : Nat) :
    ∀ (s : InphmsModuleLoader V) (m : String),
      (startLoop fuel s).2.count (LoaderEvent.invoked m)
          + (startLoop fuel s).1.jobs.count m
        ≤ s.jobs.count m := by
  induction fuel with
  | zero => intro s m; simp [startLoop]
  | succ fuel ih =>
    intro s m
    by_cases h : s.jobs.isEmpty = true
    · rw [startLoop_succ_empty fuel s h]
      simp
    · by_cases hp : (passAux s s.jobs).2.2 = true
      · rw [startLoop_succ_progress fuel s h hp]
        simp only [List.count_append]
        have h1 := passAux_invoked_count s.jobs s m
        have h2 := ih (passAux s s.jobs).1 m
        omega
      · rw [startLoop_succ_stuck fuel s h hp]
        simp only [List.count_append]
        have h1 := passAux_invoked_count s.jobs s m
        have h2 : ([LoaderEvent.errorReported
            (findErrors (passAux s s.jobs).1)].count (LoaderEvent.invoked m)) = 0 := by
          simp [List.count_cons]
        omega

theorem startLoop_invoked_mem {V : Type} (fuel : Nat) (s : InphmsModuleLoader V)
    (m : String) (h : LoaderEvent.invoked m ∈ (startLoop fuel s).2) : m ∈ s.jobs := by
  have h1 := startLoop_invoked_count fuel s m
  have h2 : 0 < (startLoop fuel s).2.count (LoaderEvent.invoked m) :=
    List.count_pos_iff.mpr h
  have h3 : 0 < s.jobs.count m := by omega
  exact List.count_pos_iff.mp h3

theorem chainOk_append {V : Type} (F : List (String × InphmsModuleFactory V))
    (mods : List (String × V)) :
    ∀ (seen : List String) (n : String) (v : V),
      chainOk F seen (mods ++ [(n, v)])
        ↔ chainOk F seen mods ∧ depsSatisfied F (seen ++ mods.map Prod.fst) n := by
  induction mods with
  | nil => intro seen n v; simp [chainOk]
  | cons p rest ih =>
    intro seen n v
    obtain ⟨m, w⟩ := p
    simp only [List.cons_append, chainOk, List.map_cons, List.append_eq]
    rw [ih (seen ++ [m]) n v]
    constructor
    · rintro ⟨h1, h2, h3⟩
      refine ⟨⟨h1, h2⟩, ?_⟩
      simpa [List.append_assoc] using h3
    · rintro ⟨⟨h1, h2⟩, h3⟩
      refine ⟨h1, h2, ?_⟩
      simpa [List.append_assoc] using h3

theorem canRun_depsSatisfied {V : Type} (s : InphmsModuleLoader V)
    (f : InphmsModuleFactory V) (h : canRun s f = true) :
    ∀ d ∈ f.deps, (s.factories.lookup d).isSome = true → d ∈ modKeys s := by
  intro d hd hreg
  unfold canRun at h
  rw [List.all_eq_true] at h
  have hor := h d hd
  rw [Bool.or_eq_true] at hor
  rcases hor with h1 | h2
  · exact (lookup_isSome_iff s.modules d).mp h1
  · exfalso
    rw [Bool.and_eq_true] at h2
    obtain ⟨h3, _⟩ := h2
    rw [Option.isNone_iff_eq_none] at h3
    rw [h3] at hreg
    simp at hreg

theorem startModule_chainOk {V : Type} (s : InphmsModuleLoader V) (n : String)
    (hrun : runnable s n = true) (h : chainOk s.factories [] s.modules) :
    chainOk (startModule s n).1.factories [] (startModule s n).1.modules := by
  rw [startModule_factories]
  unfold runnable at hrun
  unfold startModule
  split
  · exact h
  · rename_i f heq
    rw [heq] at hrun
    split
    · rename_i v hv
      show chainOk s.factories [] (s.modules ++ [(n, v)])
      rw [chainOk_append]
      refine ⟨h, ?_⟩
      intro g hg d hd hreg
      rw [heq] at hg
      cases hg
      show d ∈ [] ++ s.modules.map Prod.fst
      rw [List.nil_append]
      exact canRun_depsSatisfied s f hrun d hd hreg
    · exact h

theorem passAux_chainOk {V : Type} (ns : List String) :
    ∀ s : InphmsModuleLoader V, chainOk s.factories [] s.modules →
      chainOk (passAux s ns).1.factories [] (passAux s ns).1.modules := by
  induction ns with
  | nil => intro s h; exact h
  | cons n rest ih =>
    intro s h
    by_cases hc : n ∈ s.jobs ∧ runnable s n = true
    · rw [passAux_cons_pos s n rest hc]
      exact ih (startModule s n).1 (startModule_chainOk s n hc.2 h)
    · rw [passAux_cons_neg s n rest hc]
      exact ih s h

theorem startLoop_chainOk {V : Type} (fuel : Nat) :
    ∀ s : InphmsModuleLoader V, chainOk s.factories [] s.modules →
      chainOk (startLoop fuel s).1.factories [] (startLoop fuel s).1.modules := by
  induction fuel with
  | zero => intro s h; exact h
  | succ fuel ih =>
    intro s h
    by_cases he : s.jobs.isEmpty = true
    · rw [startLoop_succ_empty fuel s he]; exact h
    · by_cases hp : (passAux s s.jobs).2.2 = true
      · rw [startLoop_succ_progress fuel s he hp]
        exact ih _ (passAux_chainOk s.jobs s h)
      · rw [startLoop_succ_stuck fuel s he hp]
        exact passAux_chainOk s.jobs s h

theorem chainOk_before {V : Type} (mods : List (String × V))
    (F : List (String × InphmsModuleFactory V)) :
    ∀ (seen : List String) (a d : String) (fa : InphmsModuleFactory V),
      chainOk F seen mods → F.lookup a = some fa →
      a ∈ mods.map Prod.fst → d ∈ fa.deps → (F.lookup d).isSome = true →
      d ∈ seen ∨ ∃ l₁ l₂, mods.map Prod.fst = l₁ ++ d :: l₂ ∧ a ∈ l₂ := by
  induction mods with
  | nil => intro seen a d fa _ _ ha _ _; simp at ha
  | cons p rest ih =>
    intro seen a d fa hchain hla ha hdep hreg
    obtain ⟨m, w⟩ := p
    obtain ⟨h1, h2⟩ := hchain
    have ha' : a = m ∨ a ∈ rest.map Prod.fst := by simpa using ha
    rcases ha' with rfl | ha'
    · left
      exact h1 fa hla d hdep hreg
    · rcases ih (seen ++ [m]) a d fa h2 hla ha' hdep hreg with hseen | ⟨l₁, l₂, hsplit, hmem⟩
      · have hd' : d ∈ seen ∨ d = m := by simpa using hseen
        rcases hd' with h | rfl
        · left; exact h
        · right
          exact ⟨[], rest.map Prod.fst, by simp, ha'⟩
      · right
        refine ⟨m :: l₁, l₂, ?_, hmem⟩
        simp [hsplit]

theorem define_modules {V : Type} (s : InphmsModuleLoader V) (name : String)
    (deps : List String) (factory : InphmsModuleFactoryFn V) (lazy : Bool) :
    (define s name deps factory lazy).modules = s.modules := by
  unfold define addJob
  split <;> rfl

theorem define_factories {V : Type} (s : InphmsModuleLoader V) (name : String)
    (deps : List String) (factory : InphmsModuleFactoryFn V) (lazy : Bool) :
    (define s name deps factory lazy).factories
      = insertAssoc s.factories name ⟨deps, factory, lazy⟩ := by
  unfold define addJob
  split <;> rfl

theorem define_failed {V : Type} (s : InphmsModuleLoader V) (name : String)
    (deps : List String) (factory : InphmsModuleFactoryFn V) (lazy : Bool) :
    (define s name deps factory lazy).failed = s.failed := by
  unfold define addJob
  split <;> rfl

theorem registerAll_modules {V : Type} (regs : List (RegEntry V)) :
    (registerAll regs).modules = [] := by
  have key : ∀ (rs : List (RegEntry V)) (s : InphmsModuleLoader V),
      (rs.foldl (fun s r => define s r.1 r.2.1 r.2.2.1 r.2.2.2) s).modules = s.modules := by
    intro rs
    induction rs with
    | nil => intro s; rfl
    | cons r rest ih =>
      intro s
      rw [List.foldl_cons, ih, define_modules]
  exact key regs (initLoader V)

theorem startModule_cases {V : Type} (s : InphmsModuleLoader V) (n : String)
    (hrun : runnable s n = true) :
    (∃ f v, s.factories.lookup n = some f ∧ f.fn (mkRequire s f) = Except.ok v
      ∧ (startModule s n).1
          = { s with modules := s.modules ++ [(n, v)], jobs := s.jobs.erase n })
    ∨ (∃ f, s.factories.lookup n = some f
        ∧ (∃ u, f.fn (mkRequire s f) = Except.error u)
        ∧ (startModule s n).1
            = { s with failed := s.failed ++ [n], jobs := s.jobs.erase n }) := by
  unfold runnable at hrun
  unfold startModule
  split
  · rename_i heq
    rw [heq] at hrun
    exact absurd hrun (by simp)
  · rename_i f heq
    split
    · rename_i v hv
      exact Or.inl ⟨f, v, heq, hv, rfl⟩
    · rename_i u hu
      exact Or.inr ⟨f, heq, ⟨u, hu⟩, rfl⟩

theorem partitioned_mk {V : Type} (F : List (String × InphmsModuleFactory V))
    (fl js : List String) (mods : List (String × V)) :
    partitioned ⟨F, fl, js, mods⟩
      ↔ (js.Nodup ∧ (mods.map Prod.fst).Nodup
          ∧ (∀ n, (F.lookup n).isSome = true
              ↔ (n ∈ js ∨ n ∈ mods.map Prod.fst ∨ n ∈ fl))
          ∧ (∀ n, n ∈ js → n ∉ mods.map Prod.fst)
          ∧ (∀ n, n ∈ js → n ∉ fl)
          ∧ (∀ n, n ∈ mods.map Prod.fst → n ∉ fl)) :=
  Iff.rfl

theorem startModule_partitioned {V : Type} (s : InphmsModuleLoader V) (n : String)
    (hmem : n ∈ s.jobs) (hrun : runnable s n = true) (h : partitioned s) :
    partitioned (startModule s n).1 := by
  obtain ⟨h1, h2, h3, h4, h5, h6⟩ := h
  rcases startModule_cases s n hrun with ⟨f, v, heq, hv, hstate⟩ | ⟨f, heq, hu, hstate⟩
  · rw [hstate, partitioned_mk]
    simp only [List.map_append, List.map_cons, List.map_nil]
    refine ⟨h1.erase n, ?_, ?_, ?_, ?_, ?_⟩
    · rw [List.nodup_append]
      refine ⟨h2, List.nodup_singleton n, ?_⟩
      intro a ha hb
      rw [List.mem_singleton] at hb
      exact h4 n hmem (hb ▸ ha)
    · intro m
      rw [h3 m]
      constructor
      · rintro (hj | hm | hf)
        · by_cases hmn : m = n
          · subst hmn
            exact Or.inr (Or.inl (List.mem_append_right _ (List.mem_singleton.mpr rfl)))
          · exact Or.inl ((List.mem_erase_of_ne hmn).mpr hj)
        · exact Or.inr (Or.inl (List.mem_append_left _ hm))
        · exact Or.inr (Or.inr hf)
      · rintro (hj | hm | hf)
        · exact Or.inl (List.mem_of_mem_erase hj)
        · rcases List.mem_append.mp hm with hm' | hm'
          · exact Or.inr (Or.inl hm')
          · rw [List.mem_singleton] at hm'
            exact Or.inl (hm'.symm ▸ hmem)
        · exact Or.inr (Or.inr hf)
    · intro m hm
      obtain ⟨hmn, hmj⟩ := h1.mem_erase_iff.mp hm
      intro hmem'
      rcases List.mem_append.mp hmem' with hm' | hm'
      · exact h4 m hmj hm'
      · exact hmn (List.mem_singleton.mp hm')
    · intro m hm
      exact h5 m (List.mem_of_mem_erase hm)
    · intro m hm
      rcases List.mem_append.mp hm with hm' | hm'
      · exact h6 m hm'
      · rw [List.mem_singleton] at hm'
        exact hm'.symm ▸ h5 n hmem
  · rw [hstate, partitioned_mk]
    refine ⟨h1.erase n, h2, ?_, ?_, ?_, ?_⟩
    · intro m
      rw [h3 m]
      constructor
      · rintro (hj | hm | hf)
        · by_cases hmn : m = n
          · subst hmn
            exact Or.inr (Or.inr (List.mem_append_right _ (List.mem_singleton.mpr rfl)))
          · exact Or.inl ((List.mem_erase_of_ne hmn).mpr hj)
        · exact Or.inr (Or.inl hm)
        · exact Or.inr (Or.inr (List.mem_append_left _ hf))
      · rintro (hj | hm | hf)
        · exact Or.inl (List.mem_of_mem_erase hj)
        · exact Or.inr (Or.inl hm)
        · rcases List.mem_append.mp hf with hf' | hf'
          · exact Or.inr (Or.inr hf')
          · rw [List.mem_singleton] at hf'
            exact Or.inl (hf'.symm ▸ hmem)
    · intro m hm
      exact h4 m (List.mem_of_mem_erase hm)
    · intro m hm
      obtain ⟨hmn, hmj⟩ := h1.mem_erase_iff.mp hm
      intro hmem'
      rcases List.mem_append.mp hmem' with hf' | hf'
      · exact h5 m hmj hf'
      · exact hmn (List.mem_singleton.mp hf')
    · intro m hm
      intro hmem'
      rcases List.mem_append.mp hmem' with hf' | hf'
      · exact h6 m hm hf'
      · rw [List.mem_singleton] at hf'
        exact h4 n hmem (hf' ▸ hm)

theorem define_partitioned {V : Type} (s : InphmsModuleLoader V) (name : String)
    (deps : List String) (factory : InphmsModuleFactoryFn V) (lazy : Bool)
    (h : partitioned s) : partitioned (define s name deps factory lazy) := by
  obtain ⟨h1, h2, h3, h4, h5, h6⟩ := h
  unfold define addJob
  split
  · rename_i hguard
    refine ⟨h1, h2, ?_, h4, h5, h6⟩
    intro m
    show ((insertAssoc s.factories name ⟨deps, factory, lazy⟩).lookup m).isSome = true
      ↔ (m ∈ s.jobs ∨ m ∈ modKeys s ∨ m ∈ s.failed)
    rw [insertAssoc_lookup]
    by_cases hm : m = name
    · rw [if_pos hm]
      refine iff_of_true (by simp) ?_
      rcases hguard with hg | hg | hg
      · exact hm ▸ Or.inl hg
      · exact hm ▸ Or.inr (Or.inl ((lookup_isSome_iff s.modules name).mp hg))
      · exact hm ▸ Or.inr (Or.inr hg)
    · rw [if_neg hm]
      exact h3 m
  · rename_i hguard
    simp only [not_or] at hguard
    obtain ⟨hg1, hg2, hg3⟩ := hguard
    have hg2' : name ∉ modKeys s := by
      intro hmem
      exact hg2 ((lookup_isSome_iff s.modules name).mpr hmem)
    refine ⟨?_, h2, ?_, ?_, ?_, h6⟩
    · show (s.jobs ++ [name]).Nodup
      rw [List.nodup_append]
      refine ⟨h1, List.nodup_singleton name, ?_⟩
      intro a ha hb
      rw [List.mem_singleton] at hb
      exact hg1 (hb ▸ ha)
    · intro m
      show ((insertAssoc s.factories name ⟨deps, factory, lazy⟩).lookup m).isSome = true
        ↔ (m ∈ s.jobs ++ [name] ∨ m ∈ modKeys s ∨ m ∈ s.failed)
      rw [insertAssoc_lookup]
      by_cases hm : m = name
      · rw [if_pos hm]
        refine iff_of_true (by simp) ?_
        exact Or.inl (List.mem_append_right _ (List.mem_singleton.mpr hm))
      · rw [if_neg hm]
        rw [h3 m]
        constructor
        · rintro (hj | hrest)
          · exact Or.inl (List.mem_append_left _ hj)
          · exact Or.inr hrest
        · rintro (hj | hrest)
          · rcases List.mem_append.mp hj with hj' | hj'
            · exact Or.inl hj'
            · exact absurd (List.mem_singleton.mp hj') hm
          · exact Or.inr hrest
    · intro m hm
      show m ∉ modKeys s
      rcases List.mem_append.mp hm with hj' | hj'
      · exact h4 m hj'
      · exact (List.mem_singleton.mp hj') ▸ hg2'
    · intro m hm
      show m ∉ s.failed
      rcases List.mem_append.mp hm with hj' | hj'
      · exact h5 m hj'
      · exact (List.mem_singleton.mp hj') ▸ hg3

theorem passAux_partitioned {V : Type} (ns : List String) :
    ∀ s : InphmsModuleLoader V, partitioned s → partitioned (passAux s ns).1 := by
  induction ns with
  | nil => intro s h; exact h
  | cons n rest ih =>
    intro s h
    by_cases hc : n ∈ s.jobs ∧ runnable s n = true
    · rw [passAux_cons_pos s n rest hc]
      exact ih _ (startModule_partitioned s n hc.1 hc.2 h)
    · rw [passAux_cons_neg s n rest hc]
      exact ih s h

theorem startLoop_partitioned {V : Type} (fuel : Nat) :
    ∀ s : InphmsModuleLoader V, partitioned s → partitioned (startLoop fuel s).1 := by
  induction fuel with
  | zero => intro s h; exact h
  | succ fuel ih =>
    intro s h
    by_cases he : s.jobs.isEmpty = true
    · rw [startLoop_succ_empty fuel s he]; exact h
    · by_cases hp : (passAux s s.jobs).2.2 = true
      · rw [startLoop_succ_progress fuel s he hp]
        exact ih _ (passAux_partitioned s.jobs s h)
      · rw [startLoop_succ_stuck fuel s he hp]
        exact passAux_partitioned s.jobs s h

theorem initLoader_partitioned (V : Type) : partitioned (initLoader V) := by
  refine ⟨List.nodup_nil, List.nodup_nil, ?_, ?_, ?_, ?_⟩ <;>
    intro n <;> simp [initLoader, modKeys, List.lookup]

theorem reachable_partitioned {V : Type} (s : InphmsModuleLoader V)
    (h : Reachable s) : partitioned s := by
  induction h with
  | init => exact initLoader_partitioned V
  | defineStep s name deps factory lazy _ ih =>
    exact define_partitioned s name deps factory lazy ih
  | passStep s _ ih => exact passAux_partitioned s.jobs s ih
  | startStep s _ ih => exact startLoop_partitioned _ s ih

theorem define_jobs {V : Type} (s : InphmsModuleLoader V) (name : String)
    (deps : List String) (factory : InphmsModuleFactoryFn V) (lazy : Bool) :
    (define s name deps factory lazy).jobs
      = if name ∈ s.jobs ∨ (s.modules.lookup name).isSome ∨ name ∈ s.failed
        then s.jobs else s.jobs ++ [name] := by
  unfold define addJob
  split <;> rfl

theorem startModule_eq_ok {V : Type} (s : InphmsModuleLoader V) (n : String)
    (f : InphmsModuleFactory V) (v : V)
    (heq : s.factories.lookup n = some f) (hv : f.fn (mkRequire s f) = Except.ok v) :
    startModule s n
      = ({ s with modules := s.modules ++ [(n, v)], jobs := s.jobs.erase n },
          [LoaderEvent.invoked n, LoaderEvent.moduleStarted n]) := by
  unfold startModule
  simp only [heq, hv]

theorem startModule_trace_invoked {V : Type} (s : InphmsModuleLoader V) (n : String)
    (hrun : runnable s n = true) :
    ∃ t, (startModule s n).2 = LoaderEvent.invoked n :: t := by
  unfold runnable at hrun
  unfold startModule
  split
  · rename_i heq
    rw [heq] at hrun
    exact absurd hrun (by simp)
  · split
    · exact ⟨[LoaderEvent.moduleStarted n], rfl⟩
    · exact ⟨[], rfl⟩

/-- C2 counterexample: register a single factory "A" whose function throws and
run the loader.  Afterwards "A" is still registered, yet it lies in neither
the job set nor the module table (it lies in `failed` instead), so the job
names and module names alone do not partition the ever-registered names. -/
theorem c2_jobs_modules_partition_counterexample :
    (((startModules (registerAll
          [(("A" : String), ([] : List String),
            (throwFn : InphmsModuleFactoryFn Nat), false)])).1.factories.lookup
        "A").isSome = true)
    ∧ "A" ∉ (startModules (registerAll
        [(("A" : String), ([] : List String),
          (throwFn : InphmsModuleFactoryFn Nat), false)])).1.jobs
    ∧ "A" ∉ modKeys (startModules (registerAll
        [(("A" : String), ([] : List String),
          (throwFn : InphmsModuleFactoryFn Nat), false)])).1
    ∧ "A" ∈ (startModules (registerAll
        [(("A" : String), ([] : List String),
          (throwFn : InphmsModuleFactoryFn Nat), false)])).1.failed := by
  refine ⟨rfl, ?_, ?_, ?_⟩
  · show ("A" : String) ∉ ([] : List String)
    exact List.not_mem_nil _
  · show ("A" : String) ∉ ([] : List String)
    exact List.not_mem_nil _
  · show ("A" : String) ∈ ["A"]
    exact List.mem_singleton.mpr rfl

/-- C2 (amended): at every reachable instant — after any sequence of
registrations, passes and `startModules` calls — the pending jobs, the created
modules and the failed names are pairwise disjoint, duplicate-free, and their
union is exactly the set of ever-registered names; in particular a name whose
factory threw lies in `failed` and in neither the job set nor the module
table. -/
theorem c2_three_way_partition {V : Type} (s : InphmsModuleLoader V)
    (h : Reachable s) : partitioned s :=
  reachable_partitioned s h

/-- Witness for C2: the three-way partition holds concretely after
registering a throwing factory and starting the loader. -/
theorem c2_three_way_partition_witness :
    partitioned (startModules (define (initLoader Nat) "A" [] throwFn false)).1 :=
  c2_three_way_partition _
    (Reachable.startStep _ (Reachable.defineStep _ "A" [] throwFn false Reachable.init))

/-- C4: with factory "A" (no dependencies) that throws and factory "B" (no
dependencies) that returns `vB`, `startModules` still creates Module(B), puts
"A" in the failed set, returns normally (the exception is absorbed by the
scheduler), and a second `startModules` performs no factory invocation and
emits no event. -/
theorem c4_throwing_factory_isolated {V : Type} (vB : V) :
    (startModules (registerAll
        [("A", [], throwFn, false), ("B", [], okFn vB, false)])).1.modules
      = [("B", vB)]
    ∧ (startModules (registerAll
        [("A", [], throwFn, false), ("B", [], okFn vB, false)])).1.failed = ["A"]
    ∧ (startModules (registerAll
        [("A", [], throwFn, false), ("B", [], okFn vB, false)])).2
      = [LoaderEvent.invoked "A", LoaderEvent.invoked "B",
          LoaderEvent.moduleStarted "B"]
    ∧ startModules (startModules (registerAll
        [("A", [], throwFn, false), ("B", [], okFn vB, false)])).1
      = ((startModules (registerAll
          [("A", [], throwFn, false), ("B", [], okFn vB, false)])).1, []) :=
  ⟨rfl, rfl, rfl, rfl⟩

/-- C8: `startModules` is idempotent on a settled state — on a loader with no
pending jobs it returns the state unchanged with an empty trace (no factory
invocation, no event) — and more generally any factory it invokes was a
pending job at the time of the call, so a repeated start only processes jobs
registered since the previous one. -/
theorem c8_start_idempotent {V : Type} (s : InphmsModuleLoader V) :
    (s.jobs = [] → startModules s = (s, []))
    ∧ (∀ n, LoaderEvent.invoked n ∈ (startModules s).2 → n ∈ s.jobs) := by
  constructor
  · intro h
    unfold startModules
    rw [h]
    exact startLoop_succ_empty 0 s (by rw [h]; rfl)
  · intro n hmem
    exact startLoop_invoked_mem _ s n hmem

/-- C10: the hoot-wrapped `inphms.define` (installed by
`hoot_module_loader.js`) takes only name, dependencies and factory, and passes
as the fourth argument of `loader.define` the lazy / ignore-missing flag
`!name.endsWith(".hoot")`: the registered factory ignores missing
dependencies exactly when the module's name does not end in ".hoot". -/
theorem c10_hoot_define_flag {V : Type} (s : InphmsModuleLoader V) (name : String)
    (dependencies : List String) (factory : InphmsModuleFactoryFn V) :
    hootDefine s name dependencies factory
      = define s name dependencies factory (!(String.endsWith name ".hoot"))
    ∧ ((!(String.endsWith name ".hoot")) = true
        ↔ ¬(String.endsWith name ".hoot" = true))
    ∧ (hootDefine s name dependencies factory).factories.lookup name
        = some ⟨dependencies, factory, !(String.endsWith name ".hoot")⟩ := by
  refine ⟨rfl, by simp, ?_⟩
  show (define s name dependencies factory
      (!(String.endsWith name ".hoot"))).factories.lookup name = _
  rw [define_factories, insertAssoc_lookup, if_pos rfl]

/-- C6: a job is runnable iff every declared dependency is either already in
the module table or absent from the registry entirely while the factory's
ignore-missing flag is set; consequently (second conjunct) a module is only
created strictly after all of its factory's non-ignored (registered)
dependencies were created as modules: whenever Module(n) exists in the final
table, each registered dependency d of n's factory occurs strictly earlier in
the creation order. -/
theorem c6_canRun_characterisation {V : Type} (s : InphmsModuleLoader V)
    (f : InphmsModuleFactory V) :
    (canRun s f = true
      ↔ ∀ d ∈ f.deps, (s.modules.lookup d).isSome = true
          ∨ ((s.factories.lookup d).isNone = true ∧ f.ignoreMissingDeps = true))
    ∧ (∀ (regs : List (RegEntry V)) (n d : String) (g : InphmsModuleFactory V),
        (registerAll regs).factories.lookup n = some g →
        n ∈ modKeys (startModules (registerAll regs)).1 →
        d ∈ g.deps → ((registerAll regs).factories.lookup d).isSome = true →
        createdBefore (startModules (registerAll regs)).1 d n) := by
  constructor
  · unfold canRun
    rw [List.all_eq_true]
    constructor
    · intro h d hd
      have hx := h d hd
      rw [Bool.or_eq_true, Bool.and_eq_true] at hx
      exact hx
    · intro h d hd
      rw [Bool.or_eq_true, Bool.and_eq_true]
      exact h d hd
  · intro regs n d g hg hn hd hreg
    have hchain0 : chainOk (registerAll regs).factories [] (registerAll regs).modules := by
      rw [registerAll_modules]
      trivial
    have hchain := startLoop_chainOk ((registerAll regs).jobs.length + 1)
      (registerAll regs) hchain0
    rw [startLoop_factories] at hchain
    have hres := chainOk_before (startModules (registerAll regs)).1.modules
      (registerAll regs).factories [] n d g hchain hg hn hd hreg
    rcases hres with habs | ⟨l₁, l₂, hsplit, hmem⟩
    · exact absurd habs (List.not_mem_nil d)
    · exact ⟨l₁, l₂, hsplit, hmem⟩

/-- C1: for a valid (non-cyclic, fully satisfiable) registration set —
formalised as one whose `startModules` run resolves every registered name into
a module — and any factories A and B where A declares B as a dependency and B
is registered, the run creates Module(B) strictly before Module(A). -/
theorem c1_dependency_order {V : Type} (regs : List (RegEntry V)) (A B : String)
    (f : InphmsModuleFactory V)
    (hA : (registerAll regs).factories.lookup A = some f)
    (hB : B ∈ f.deps)
    (hBreg : ((registerAll regs).factories.lookup B).isSome = true)
    (hdone : ∀ n ∈ factoryKeys (registerAll regs),
      n ∈ modKeys (startModules (registerAll regs)).1) :
    createdBefore (startModules (registerAll regs)).1 B A := by
  have hchain0 : chainOk (registerAll regs).factories [] (registerAll regs).modules := by
    rw [registerAll_modules]
    trivial
  have hchain := startLoop_chainOk ((registerAll regs).jobs.length + 1)
    (registerAll regs) hchain0
  rw [startLoop_factories] at hchain
  have hAkeys : A ∈ factoryKeys (registerAll regs) := by
    have hsome : ((registerAll regs).factories.lookup A).isSome = true := by
      rw [hA]
      rfl
    exact (lookup_isSome_iff (registerAll regs).factories A).mp hsome
  have hAmod : A ∈ modKeys (startModules (registerAll regs)).1 := hdone A hAkeys
  have hres := chainOk_before (startModules (registerAll regs)).1.modules
    (registerAll regs).factories [] A B f hchain hA hAmod hB hBreg
  rcases hres with habs | ⟨l₁, l₂, hsplit, hmem⟩
  · exact absurd habs (List.not_mem_nil B)
  · exact ⟨l₁, l₂, hsplit, hmem⟩

/-- Witness for C1: with B registered first, A depending on B, the fully
resolved run creates Module(B) strictly before Module(A). -/
theorem c1_dependency_order_witness :
    createdBefore (startModules (registerAll
      [("B", [], okFn (0 : Nat), false), ("A", ["B"], okFn 1, false)])).1 "B" "A" :=
  c1_dependency_order
    [("B", [], okFn (0 : Nat), false), ("A", ["B"], okFn 1, false)]
    "A" "B" ⟨["B"], okFn 1, false⟩ rfl (by decide) rfl (by decide)

/-- C3: with exactly two factories A and B, each depending on the other,
`startModules` emits one error classification whose cycle is non-null, both
"A" and "B" lie in {cycle} ∪ unloaded, and neither factory function is ever
invoked — whatever the two factory functions are. -/
theorem c3_mutual_cycle {V : Type} (fA fB : InphmsModuleFactoryFn V) :
    (startModules (registerAll [("A", ["B"], fA, false), ("B", ["A"], fB, false)])).2
      = [LoaderEvent.errorReported (findErrors (registerAll
          [("A", ["B"], fA, false), ("B", ["A"], fB, false)]))]
    ∧ (findErrors (registerAll
        [("A", ["B"], fA, false), ("B", ["A"], fB, false)])).cycle ≠ none
    ∧ ((findErrors (registerAll
          [("A", ["B"], fA, false), ("B", ["A"], fB, false)])).cycle = some "A"
        ∨ "A" ∈ (findErrors (registerAll
            [("A", ["B"], fA, false), ("B", ["A"], fB, false)])).unloaded)
    ∧ ((findErrors (registerAll
          [("A", ["B"], fA, false), ("B", ["A"], fB, false)])).cycle = some "B"
        ∨ "B" ∈ (findErrors (registerAll
            [("A", ["B"], fA, false), ("B", ["A"], fB, false)])).unloaded)
    ∧ ∀ n, LoaderEvent.invoked n ∉ (startModules (registerAll
        [("A", ["B"], fA, false), ("B", ["A"], fB, false)])).2 := by
  have hc : (findErrors (registerAll
      [("A", ["B"], fA, false), ("B", ["A"], fB, false)])).cycle = some "A" := rfl
  have hu : (findErrors (registerAll
      [("A", ["B"], fA, false), ("B", ["A"], fB, false)])).unloaded = ["B"] := rfl
  have ht : (startModules (registerAll
      [("A", ["B"], fA, false), ("B", ["A"], fB, false)])).2
      = [LoaderEvent.errorReported (findErrors (registerAll
          [("A", ["B"], fA, false), ("B", ["A"], fB, false)]))] := rfl
  refine ⟨ht, ?_, Or.inl hc, ?_, ?_⟩
  · rw [hc]
    intro hcon
    exact Option.noConfusion hcon
  · right
    rw [hu]
    exact List.mem_singleton.mpr rfl
  · intro n hmem
    rw [ht] at hmem
    exact LoaderEvent.noConfusion (List.mem_singleton.mp hmem)

/-- C5: factory "A" registered with dependency "ghost" and the ignore-missing
flag, "ghost" never registered: the factory function is invoked, and the
require capability handed to it resolves "ghost" to the explicit absent
sentinel `Except.ok none` while it throws for "A" itself — a name that is
neither an already-started module nor excused (it is registered). -/
theorem c5_ignore_missing_sentinel {V : Type} (fA : InphmsModuleFactoryFn V) :
    LoaderEvent.invoked "A"
        ∈ (startModules (registerAll [("A", ["ghost"], fA, true)])).2
    ∧ mkRequire (registerAll [("A", ["ghost"], fA, true)])
        ⟨["ghost"], fA, true⟩ "ghost" = Except.ok none
    ∧ mkRequire (registerAll [("A", ["ghost"], fA, true)])
        ⟨["ghost"], fA, true⟩ "A" = Except.error () := by
  refine ⟨?_, rfl, rfl⟩
  have hguard : "A" ∈ (registerAll [("A", ["ghost"], fA, true)]).jobs
      ∧ runnable (registerAll [("A", ["ghost"], fA, true)]) "A" = true := by
    constructor
    · show ("A" : String) ∈ ["A"]
      exact List.mem_singleton.mpr rfl
    · rfl
  have hne : ¬(registerAll [("A", ["ghost"], fA, true)]).jobs.isEmpty = true := by
    intro hcon
    exact Bool.noConfusion hcon
  have hpass := passAux_cons_pos (registerAll [("A", ["ghost"], fA, true)]) "A" [] hguard
  have hprog : (passAux (registerAll [("A", ["ghost"], fA, true)])
      (registerAll [("A", ["ghost"], fA, true)]).jobs).2.2 = true := by
    show (passAux (registerAll [("A", ["ghost"], fA, true)]) ("A" :: [])).2.2 = true
    rw [hpass]
  show LoaderEvent.invoked "A" ∈ (startLoop
      ((registerAll [("A", ["ghost"], fA, true)]).jobs.length + 1)
      (registerAll [("A", ["ghost"], fA, true)])).2
  rw [startLoop_succ_progress _ _ hne hprog]
  apply List.mem_append_left
  show LoaderEvent.invoked "A" ∈ (passAux (registerAll
      [("A", ["ghost"], fA, true)]) ("A" :: [])).2.1
  rw [hpass]
  obtain ⟨t, htr⟩ := startModule_trace_invoked
    (registerAll [("A", ["ghost"], fA, true)]) "A" hguard.2
  show LoaderEvent.invoked "A"
      ∈ (startModule (registerAll [("A", ["ghost"], fA, true)]) "A").2
        ++ (passAux (startModule (registerAll [("A", ["ghost"], fA, true)]) "A").1 []).2.1
  rw [htr]
  exact List.mem_append_left _ (List.mem_cons_self _ _)

/-- C7: the scheduler terminates on every finite registry: a pass that makes
progress strictly shrinks the job set; fuel beyond `jobs.length` is
irrelevant, so the loop ends; it ends with all jobs resolved or at the first
zero-progress pass with jobs remaining (reporting an error classification);
and no factory — in particular no factory that threw — is invoked more than
once in a run. -/
theorem c7_scheduler_terminates {V : Type} (s : InphmsModuleLoader V)
    (h : s.jobs.Nodup) :
    (∀ ns, (passAux s ns).2.2 = true → (passAux s ns).1.jobs.length < s.jobs.length)
    ∧ (∀ fuel, s.jobs.length < fuel → startLoop fuel s = startModules s)
    ∧ ((startModules s).1.jobs = []
        ∨ ((startModules s).1.jobs ≠ []
            ∧ (passAux (startModules s).1 (startModules s).1.jobs).2.2 = false
            ∧ ∃ e, LoaderEvent.errorReported e ∈ (startModules s).2))
    ∧ (∀ n, (startModules s).2.count (LoaderEvent.invoked n) ≤ 1) := by
  refine ⟨?_, ?_, ?_, ?_⟩
  · intro ns hp
    exact passAux_progress_lt ns s hp
  · intro fuel hf
    exact startLoop_fuel_irrelevant fuel (s.jobs.length + 1) s hf (Nat.lt_succ_self _)
  · exact startLoop_final _ s (Nat.lt_succ_self _)
  · intro n
    show (startLoop (s.jobs.length + 1) s).2.count (LoaderEvent.invoked n) ≤ 1
    have h1 := startLoop_invoked_count (s.jobs.length + 1) s n
    have h2 : s.jobs.count n ≤ 1 := List.nodup_iff_count_le_one.mp h n
    omega

/-- Witness for C7 at a concrete registry holding a throwing factory "A" and a
factory "C" permanently blocked on an unregistered dependency: the run ends at
a zero-progress pass with "C" remaining and an error classification
reported. -/
theorem c7_scheduler_terminates_witness :
    (startModules (registerAll [("A", ([] : List String),
        (throwFn : InphmsModuleFactoryFn Nat), false),
        ("C", ["ghost"], okFn 0, false)])).1.jobs = []
      ∨ ((startModules (registerAll [("A", ([] : List String),
            (throwFn : InphmsModuleFactoryFn Nat), false),
            ("C", ["ghost"], okFn 0, false)])).1.jobs ≠ []
          ∧ (passAux (startModules (registerAll [("A", ([] : List String),
              (throwFn : InphmsModuleFactoryFn Nat), false),
              ("C", ["ghost"], okFn 0, false)])).1
              (startModules (registerAll [("A", ([] : List String),
              (throwFn : InphmsModuleFactoryFn Nat), false),
              ("C", ["ghost"], okFn 0, false)])).1.jobs).2.2 = false
          ∧ ∃ e, LoaderEvent.errorReported e
              ∈ (startModules (registerAll [("A", ([] : List String),
                (throwFn : InphmsModuleFactoryFn Nat), false),
                ("C", ["ghost"], okFn 0, false)])).2) :=
  (c7_scheduler_terminates (registerAll [("A", ([] : List String),
      (throwFn : InphmsModuleFactoryFn Nat), false),
      ("C", ["ghost"], okFn 0, false)]) (by decide)).2.2.1

/-- C9: on a reachable settled loader (no pending jobs) with "C" unregistered,
registering the dependency-free factory "C" enqueues exactly the job "C", and
the next `startModules` run appends Module(C) to the module table, leaves
every previously created module and the failed set unchanged, and invokes only
"C"'s factory. -/
theorem c9_late_registration {V : Type} (s : InphmsModuleLoader V) (vC : V)
    (hreach : Reachable s) (hsettled : s.jobs = [])
    (hfresh : s.factories.lookup "C" = none) :
    (define s "C" [] (okFn vC) false).jobs = ["C"]
    ∧ (startModules (define s "C" [] (okFn vC) false)).1.modules
        = s.modules ++ [("C", vC)]
    ∧ (startModules (define s "C" [] (okFn vC) false)).1.failed = s.failed
    ∧ (startModules (define s "C" [] (okFn vC) false)).2
        = [LoaderEvent.invoked "C", LoaderEvent.moduleStarted "C"] := by
  obtain ⟨h1, h2, h3, h4, h5, h6⟩ := reachable_partitioned s hreach
  have hCmods : ¬(s.modules.lookup "C").isSome = true := by
    intro hs
    have hreg := (h3 "C").mpr (Or.inr (Or.inl ((lookup_isSome_iff s.modules "C").mp hs)))
    rw [hfresh] at hreg
    exact Bool.noConfusion hreg
  have hCfail : "C" ∉ s.failed := by
    intro hs
    have hreg := (h3 "C").mpr (Or.inr (Or.inr hs))
    rw [hfresh] at hreg
    exact Bool.noConfusion hreg
  have hguard : ¬("C" ∈ s.jobs ∨ (s.modules.lookup "C").isSome ∨ "C" ∈ s.failed) := by
    rintro (hg | hg | hg)
    · rw [hsettled] at hg
      exact List.not_mem_nil _ hg
    · exact hCmods hg
    · exact hCfail hg
  have hjobs1 : (define s "C" [] (okFn vC) false).jobs = ["C"] := by
    rw [define_jobs, if_neg hguard, hsettled]
    rfl
  have hfac1 : (define s "C" [] (okFn vC) false).factories
      = insertAssoc s.factories "C" ⟨[], okFn vC, false⟩ :=
    define_factories s "C" [] (okFn vC) false
  have hlookC : (define s "C" [] (okFn vC) false).factories.lookup "C"
      = some ⟨[], okFn vC, false⟩ := by
    rw [hfac1, insertAssoc_lookup, if_pos rfl]
  have hrunC : runnable (define s "C" [] (okFn vC) false) "C" = true := by
    unfold runnable
    rw [hlookC]
    rfl
  have hmemC : "C" ∈ (define s "C" [] (okFn vC) false).jobs := by
    rw [hjobs1]
    exact List.mem_singleton.mpr rfl
  have hreq : (⟨[], okFn vC, false⟩ : InphmsModuleFactory V).fn
      (mkRequire (define s "C" [] (okFn vC) false) ⟨[], okFn vC, false⟩)
      = Except.ok vC := rfl
  have hsm := startModule_eq_ok (define s "C" [] (okFn vC) false) "C"
    ⟨[], okFn vC, false⟩ vC hlookC hreq
  have hpassC : passAux (define s "C" [] (okFn vC) false) ("C" :: [])
      = ({ factories := (define s "C" [] (okFn vC) false).factories,
            failed := (define s "C" [] (okFn vC) false).failed,
            jobs := ([] : List String),
            modules := (define s "C" [] (okFn vC) false).modules ++ [("C", vC)] },
          [LoaderEvent.invoked "C", LoaderEvent.moduleStarted "C"], true) := by
    rw [passAux_cons_pos (define s "C" [] (okFn vC) false) "C" [] ⟨hmemC, hrunC⟩, hsm,
      hjobs1]
    rfl
  have hne1 : ¬(define s "C" [] (okFn vC) false).jobs.isEmpty = true := by
    rw [hjobs1]
    intro hcon
    exact Bool.noConfusion hcon
  have hprog1 : (passAux (define s "C" [] (okFn vC) false)
      (define s "C" [] (okFn vC) false).jobs).2.2 = true := by
    rw [hjobs1]
    rw [show (["C"] : List String) = "C" :: [] from rfl, hpassC]
  have hempty2 : ((⟨(define s "C" [] (okFn vC) false).factories,
      (define s "C" [] (okFn vC) false).failed, ([] : List String),
      (define s "C" [] (okFn vC) false).modules ++ [("C", vC)]⟩
        : InphmsModuleLoader V)).jobs.isEmpty = true := rfl
  have hloop : startModules (define s "C" [] (okFn vC) false)
      = ({ factories := (define s "C" [] (okFn vC) false).factories,
            failed := (define s "C" [] (okFn vC) false).failed,
            jobs := ([] : List String),
            modules := (define s "C" [] (okFn vC) false).modules ++ [("C", vC)] },
          [LoaderEvent.invoked "C", LoaderEvent.moduleStarted "C"]) := by
    unfold startModules
    rw [startLoop_succ_progress _ _ hne1 hprog1]
    rw [hjobs1]
    rw [show (["C"] : List String) = "C" :: [] from rfl, hpassC]
    dsimp only
    rw [show (["C"] : List String).length = 0 + 1 from rfl]
    rw [startLoop_succ_empty 0 _ hempty2]
    dsimp only
    rw [List.append_nil]
  refine ⟨hjobs1, ?_, ?_, ?_⟩
  · rw [hloop]
    show (define s "C" [] (okFn vC) false).modules ++ [("C", vC)]
        = s.modules ++ [("C", vC)]
    rw [define_modules]
  · rw [hloop]
    show (define s "C" [] (okFn vC) false).failed = s.failed
    rw [define_failed]
  · rw [hloop]

/-- Witness for C9: after starting a loader holding only "B", registering the
fresh factory "C" and starting again appends Module(C), leaves Module(B) and
the failed set untouched, and invokes only "C". -/
theorem c9_late_registration_witness :
    (define (startModules (define (initLoader Nat) "B" [] (okFn 5) false)).1
        "C" [] (okFn 7) false).jobs = ["C"]
    ∧ (startModules (define (startModules (define (initLoader Nat) "B" []
          (okFn 5) false)).1 "C" [] (okFn 7) false)).1.modules
        = (startModules (define (initLoader Nat) "B" [] (okFn 5) false)).1.modules
            ++ [("C", 7)]
    ∧ (startModules (define (startModules (define (initLoader Nat) "B" []
          (okFn 5) false)).1 "C" [] (okFn 7) false)).1.failed
        = (startModules (define (initLoader Nat) "B" [] (okFn 5) false)).1.failed
    ∧ (startModules (define (startModules (define (initLoader Nat) "B" []
          (okFn 5) false)).1 "C" [] (okFn 7) false)).2
        = [LoaderEvent.invoked "C", LoaderEvent.moduleStarted "C"] :=
  c9_late_registration (startModules (define (initLoader Nat) "B" [] (okFn 5) false)).1 7
    (Reachable.startStep _ (Reachable.defineStep _ "B" [] (okFn 5) false Reachable.init))
    rfl rfl

end Inphms
